import Mathlib

/-!
Car-on-a-clothoid simulator (`src_tests/testCarClothoids.cc`)

A shallow embedding of the driver program: the `CarState` record, the two
gnuplot writers `plot_simulation_interactive` and `plot_simulation`, and the
sampling loop of `main`.

Conventions of the embedding.

* The program computes in C++ `double`.  Every definition of the program is
  written over a type `D` of doubles and a record `DoubleOps D` of the
  operations the program applies to them (`+`, `*`, `/`, unary `-`, `<=`,
  and the conversion of a literal), so that no property of the arithmetic is
  assumed.  `binary64` is the IEEE 754 double-precision instance (round to
  nearest, ties to even, with subnormals, signed zeros, infinities and NaN,
  each operation rounded once, no excess precision); the concrete runs below
  are computed in it, and the theorems that need properties of the arithmetic
  are stated for it.
* `ClothoidCurve` lives in the library headers `Clothoids.hh`; the driver only
  uses `build_G1`, `length` and `evaluate`.  The fitted curve is a record with
  a length and an evaluation function, and `build_G1` is a parameter of `main`.
* The conversion of a number to text (`%f` of `fprintf`, `operator<<` of
  `std::cout`) is a parameter `fmt : D → String`.
* The `for` loop is a fuel-indexed function: one unit of fuel pays for one test
  of the loop guard; `none` means that the fuel ran out before the guard failed.
* Console diagnostics written by `main` to `std::cout`/`std::cerr` are not part
  of the modelled state.
-/

namespace CarClothoids

/-! ## Double arithmetic -/

/-- The operations on `double` that the driver uses.  `lit n d` is the double
denoted by a literal whose decimal value is `n / d` (`0.1` is `lit 1 10`). -/
structure DoubleOps (D : Type) where
  lit : Int → Nat → D
  add : D → D → D
  mul : D → D → D
  div : D → D → D
  neg : D → D
  le : D → D → Bool

/-- An IEEE 754 binary64 datum: `finite sign m e` is `(-1)^sign * m * 2^e`.  The
canonical encodings have `m < 2^53`, `-1074 ≤ e ≤ 971` and `2^52 ≤ m` unless
`e = -1074` (subnormals and zeros). -/
inductive Double where
  | finite (sign : Bool) (m : Nat) (e : Int)
  | inf (sign : Bool)
  | nan
deriving DecidableEq, Repr

/-- Number of binary digits of `n`, computed with at most `fuel` steps; a step drops
32 digits at once when there are more than 32 of them, and one digit otherwise. -/
def bitLength : Nat → Nat → Nat
  | 0, _ => 0
  | fuel + 1, n =>
    if n = 0 then 0
    else if 2 ^ 32 ≤ n then bitLength fuel (n / 2 ^ 32) + 32
    else bitLength fuel (n / 2) + 1

/-- The floor of the binary logarithm of `n` (and `0` for `n = 0`). -/
def log2 (n : Nat) : Nat :=
  bitLength n n - 1

/-- Numerator and denominator of `(n / d) / 2^e`. -/
def scale (n d : Nat) (e : Int) : Nat × Nat :=
  if 0 ≤ e then (n, d * 2 ^ e.toNat) else (n * 2 ^ (-e).toNat, d)

/-- The integer nearest to `n / d`, ties going to the even one. -/
def roundHalfEven (n d : Nat) : Nat :=
  let q := n / d
  let r := n % d
  if 2 * r < d then q
  else if d < 2 * r then q + 1
  else if q % 2 = 0 then q else q + 1

/-- The floor of the binary logarithm of `n / d`, for `n, d > 0`: the difference `c`
of the logarithms of `n` and `d` when `2^c ≤ n / d`, and `c - 1` otherwise. -/
def floorLog2 (n d : Nat) : Int :=
  let c : Int := (log2 n : Int) - (log2 d : Int)
  let p := scale n d c
  if p.2 ≤ p.1 then c else c - 1

/-- The exponent at which `n / d` is rounded: 52 below its binary logarithm, and not
below the exponent `-1074` of the subnormals. -/
def roundExponent (n d : Nat) : Int :=
  max (floorLog2 n d - 52) (-1074)

/-- The significand of `n / d` at the exponent `roundExponent n d`, rounded to the
nearest integer, ties to even. -/
def roundSignificand (n d : Nat) : Nat :=
  let q := scale n d (roundExponent n d)
  roundHalfEven q.1 q.2

/-- Significand and exponent of the binary64 value nearest to `n / d` (ties to
even); `none` when the rounded value exceeds the largest finite double. -/
def roundMagnitude (n d : Nat) : Option (Nat × Int) :=
  if n = 0 then some (0, -1074)
  else
    let m := roundSignificand n d
    let e := roundExponent n d
    let me : Nat × Int := if m = 2 ^ 53 then (2 ^ 52, e + 1) else (m, e)
    if 971 < me.2 then none else some me

/-- The rational value `m * 2^e` of the rounding of `n / d`, before the test for
overflow. -/
def roundedValue (n d : Nat) : ℚ :=
  (roundSignificand n d : ℚ) * (2 : ℚ) ^ roundExponent n d

/-- The double nearest to `(-1)^sign * n / d`. -/
def Double.round (sign : Bool) (n d : Nat) : Double :=
  match roundMagnitude n d with
  | none => Double.inf sign
  | some me => Double.finite sign me.1 me.2

/-- The double nearest to `(-1)^sign * n * 2^e`. -/
def Double.roundDyadic (sign : Bool) (n : Nat) (e : Int) : Double :=
  if 0 ≤ e then Double.round sign (n * 2 ^ e.toNat) 1
  else Double.round sign n (2 ^ (-e).toNat)

/-- The integer `(-1)^sign * m`. -/
def Double.signed (sign : Bool) (m : Nat) : Int :=
  if sign then -(m : Int) else (m : Int)

/-- The double denoted by a literal of value `n / d`, correctly rounded (a literal has
`d > 0`; `d = 0` is mapped to NaN). -/
def Double.lit (n : Int) (d : Nat) : Double :=
  if d = 0 then Double.nan else Double.round (decide (n < 0)) n.natAbs d

/-- IEEE addition. -/
def Double.add : Double → Double → Double
  | Double.nan, _ => Double.nan
  | _, Double.nan => Double.nan
  | Double.inf s, Double.inf s2 => if s = s2 then Double.inf s else Double.nan
  | Double.inf s, Double.finite _ _ _ => Double.inf s
  | Double.finite _ _ _, Double.inf s => Double.inf s
  | Double.finite s1 m1 e1, Double.finite s2 m2 e2 =>
    let e := min e1 e2
    let sum := Double.signed s1 (m1 * 2 ^ (e1 - e).toNat) +
      Double.signed s2 (m2 * 2 ^ (e2 - e).toNat)
    if sum = 0 then Double.finite (s1 && s2) 0 (-1074)
    else Double.roundDyadic (decide (sum < 0)) sum.natAbs e

/-- IEEE multiplication. -/
def Double.mul : Double → Double → Double
  | Double.nan, _ => Double.nan
  | _, Double.nan => Double.nan
  | Double.inf s, Double.inf s2 => Double.inf (xor s s2)
  | Double.inf s, Double.finite s2 m2 _ => if m2 = 0 then Double.nan else Double.inf (xor s s2)
  | Double.finite s1 m1 _, Double.inf s => if m1 = 0 then Double.nan else Double.inf (xor s1 s)
  | Double.finite s1 m1 e1, Double.finite s2 m2 e2 =>
    Double.roundDyadic (xor s1 s2) (m1 * m2) (e1 + e2)

/-- IEEE division. -/
def Double.div : Double → Double → Double
  | Double.nan, _ => Double.nan
  | _, Double.nan => Double.nan
  | Double.inf _, Double.inf _ => Double.nan
  | Double.inf s, Double.finite s2 _ _ => Double.inf (xor s s2)
  | Double.finite s1 _ _, Double.inf s => Double.finite (xor s1 s) 0 (-1074)
  | Double.finite s1 m1 e1, Double.finite s2 m2 e2 =>
    if m2 = 0 then
      if m1 = 0 then Double.nan else Double.inf (xor s1 s2)
    else if 0 ≤ e1 - e2 then Double.round (xor s1 s2) (m1 * 2 ^ (e1 - e2).toNat) m2
    else Double.round (xor s1 s2) m1 (m2 * 2 ^ (e2 - e1).toNat)

/-- IEEE negation. -/
def Double.neg : Double → Double
  | Double.nan => Double.nan
  | Double.inf s => Double.inf (!s)
  | Double.finite s m e => Double.finite (!s) m e

/-- IEEE comparison `<=` (false when an operand is NaN). -/
def Double.le : Double → Double → Bool
  | Double.nan, _ => false
  | _, Double.nan => false
  | Double.inf s, Double.inf s2 => s || !s2
  | Double.inf s, Double.finite _ _ _ => s
  | Double.finite _ _ _, Double.inf s => !s
  | Double.finite s1 m1 e1, Double.finite s2 m2 e2 =>
    let e := min e1 e2
    decide (Double.signed s1 (m1 * 2 ^ (e1 - e).toNat) ≤
      Double.signed s2 (m2 * 2 ^ (e2 - e).toNat))

/-- IEEE comparison `<`. -/
def Double.lt (a b : Double) : Bool :=
  Double.le a b && !Double.le b a

/-- The IEEE 754 binary64 arithmetic. -/
def binary64 : DoubleOps Double :=
  { lit := Double.lit
    add := Double.add
    mul := Double.mul
    div := Double.div
    neg := Double.neg
    le := Double.le }

/-- The rational value of a finite double (`0` for infinities and NaN). -/
def Double.toRat : Double → ℚ
  | Double.finite s m e => (if s then -1 else 1) * (m : ℚ) * (2 : ℚ) ^ e
  | _ => 0

/-- The datum is a zero, a positive finite number or `+inf`. -/
def Double.nonneg : Double → Bool
  | Double.finite s m _ => !s || decide (m = 0)
  | Double.inf s => !s
  | Double.nan => false

/-- The datum is `+inf` or a finite double with clear sign bit, significand below
`2^53` and exponent at least `-1074`. -/
def Double.regular : Double → Bool
  | Double.finite s m e => !s && decide (m < 2 ^ 53) && decide (-1074 ≤ e)
  | Double.inf s => !s
  | Double.nan => false

/-- The datum is finite. -/
def Double.isFinite : Double → Bool
  | Double.finite _ _ _ => true
  | _ => false

/-! ## The program -/

/-- The record `struct CarState { double x, y, theta; }`. -/
structure CarState (D : Type) where
  x : D
  y : D
  theta : D
deriving DecidableEq, Repr

/-- Values that `clothoid.evaluate(s, theta, kappa, x, y)` stores through its
four reference arguments. -/
structure EvalOut (D : Type) where
  theta : D
  kappa : D
  x : D
  y : D
deriving DecidableEq, Repr

/-- What the driver observes of a fitted `ClothoidCurve`: `length()` and
`evaluate(s, ...)`. -/
structure ClothoidCurve (D : Type) where
  length : D
  evaluate : D → EvalOut D

/-- The plot command shared by both writers (source lines 25-27 and 51-53). -/
def plotCommand : String :=
  "plot \x27-\x27 with lines lc \x27green\x27 title \x27Path\x27, " ++
  "\x27-\x27 with points pt 7 ps 2 lc \x27blue\x27 title \x27Start\x27, " ++
  "\x27-\x27 with points pt 7 ps 2 lc \x27red\x27 title \x27End\x27\n"

/-- The function `plot_simulation_interactive`: the text written to the gnuplot
pipe, or `none` when `popen` fails (`popenOk = false`) and the function returns
after its error message. -/
def plot_simulation_interactive {D : Type} (fmt : D → String) (popenOk : Bool)
    (path : List (CarState D)) (start end_ : CarState D) : Option String :=
  if popenOk then
    let out := "set grid\n"
    let out := out ++ "set size ratio -1\n"
    let out := out ++ plotCommand
    let out := path.foldl (fun o p => o ++ (fmt p.x ++ " " ++ fmt p.y ++ "\n")) out
    let out := out ++ "e\n"
    let out := out ++ (fmt start.x ++ " " ++ fmt start.y ++ "\n")
    let out := out ++ "e\n"
    let out := out ++ (fmt end_.x ++ " " ++ fmt end_.y ++ "\n")
    let out := out ++ "e\n"
    some out
  else
    none

/-- State of the `for` loop of `main`: the loop variable `t`, the vector `path`,
and (ghost) the arc lengths passed to `evaluate` so far, in call order. -/
structure LoopState (D : Type) where
  t : D
  path : List (CarState D)
  calls : List D
deriving DecidableEq, Repr

/-- The braced initialiser `{x, y, theta}` of `path.push_back({x, y, theta})`. -/
def EvalOut.toCarState {D : Type} (r : EvalOut D) : CarState D :=
  { x := r.x, y := r.y, theta := r.theta }

/-- One pass through the loop body (source lines 88-93) followed by `t += dt`. -/
def loopBody {D : Type} (A : DoubleOps D) (evaluate : D → EvalOut D) (velocity dt : D)
    (st : LoopState D) : LoopState D :=
  let s := A.mul velocity st.t
  let r := evaluate s
  { t := A.add st.t dt
    path := st.path ++ [r.toCarState]
    calls := st.calls ++ [s] }

/-- The loop `for (...; t <= total_time; t += dt) body` continued from state `st`;
each test of the guard costs one unit of fuel. -/
def drivingLoop {D : Type} (A : DoubleOps D) (evaluate : D → EvalOut D)
    (velocity dt total_time : D) : Nat → LoopState D → Option (LoopState D)
  | 0, _ => none
  | fuel + 1, st =>
    if A.le st.t total_time then
      drivingLoop A evaluate velocity dt total_time fuel (loopBody A evaluate velocity dt st)
    else
      some st

/-- What a run of `main` produces: the arc lengths passed to `evaluate` (ghost),
the `path` argument handed to `plot_simulation_interactive`, and the text that
reaches the gnuplot pipe. -/
structure MainOut (D : Type) where
  calls : List D
  path : List (CarState D)
  gnuplot : Option String
deriving DecidableEq, Repr

/-- Steps 3 and 4 of `main` (source lines 80-102) with the speed and the time
step as parameters; `main` fixes them to `1.0` and `0.1`.  The loop variable
starts at `double t = 0`. -/
def simulate {D : Type} (A : DoubleOps D) (fmt : D → String) (popenOk : Bool)
    (start end_ : CarState D) (clothoid : ClothoidCurve D) (velocity dt : D)
    (fuel : Nat) : Option (MainOut D) :=
  let total_time := A.div clothoid.length velocity
  match drivingLoop A clothoid.evaluate velocity dt total_time fuel
      { t := A.lit 0 1, path := [], calls := [] } with
  | none => none
  | some st =>
    some { calls := st.calls
           path := st.path
           gnuplot := plot_simulation_interactive fmt popenOk st.path start end_ }

/-- The function `main`.  `M_PI` is the constant of `<cmath>`; `build_G1` is the
library fit, returning its status and the curve it leaves in `clothoid`. -/
def main {D : Type} (A : DoubleOps D) (M_PI : D)
    (build_G1 : D → D → D → D → D → D → Bool × ClothoidCurve D)
    (fmt : D → String) (popenOk : Bool) (fuel : Nat) : Option (MainOut D) :=
  let start : CarState D :=
    { x := A.lit 2 1, y := A.lit 5 10, theta := A.div M_PI (A.lit 4 1) }
  let end_ : CarState D :=
    { x := A.lit 5 1, y := A.lit 3 1, theta := A.div (A.neg M_PI) (A.lit 6 1) }
  let clothoid := (build_G1 start.x start.y start.theta end_.x end_.y end_.theta).2
  let velocity : D := A.lit 1 1
  let dt : D := A.lit 1 10
  simulate A fmt popenOk start end_ clothoid velocity dt fuel

/-! ## Auxiliary descriptions of the run -/

/-- The value of the loop variable `t` at the `k`-th test of the guard: `0`, then
one rounded addition of `dt` per pass. -/
def loopTime {D : Type} (A : DoubleOps D) (dt : D) : Nat → D
  | 0 => A.lit 0 1
  | k + 1 => A.add (loopTime A dt k) dt

/-- The loop state after `n` passes through the body. -/
def loopIter {D : Type} (A : DoubleOps D) (evaluate : D → EvalOut D) (velocity dt : D) :
    Nat → LoopState D
  | 0 => { t := A.lit 0 1, path := [], calls := [] }
  | n + 1 => loopBody A evaluate velocity dt (loopIter A evaluate velocity dt n)

/-- The arc lengths named by the specification, in exact arithmetic: `v * (k * dt)`
for `k = 0, 1, ..., floor (L / (v * dt))`. -/
def specArcLengths (L v dt : ℚ) : List ℚ :=
  (List.range (⌊L / (v * dt)⌋₊ + 1)).map (fun k : Nat => v * ((k : ℚ) * dt))

/-- A curve of length `0.25` whose evaluation returns `theta = s`, `kappa = 0`,
`x = s`, `y = 0`. -/
def sampleCurve : ClothoidCurve Double :=
  { length := Double.lit 1 4
    evaluate := fun s => { theta := s, kappa := Double.lit 0 1, x := s, y := Double.lit 0 1 } }

/-- The curve `sampleCurve` with the curvature output changed to `1`. -/
def curvedSample : ClothoidCurve Double :=
  { length := Double.lit 1 4
    evaluate := fun s => { theta := s, kappa := Double.lit 1 1, x := s, y := Double.lit 0 1 } }

/-- The curve of length `L` with the evaluation of `sampleCurve`. -/
def sampleCurveOfLength (L : Double) : ClothoidCurve Double :=
  { length := L, evaluate := sampleCurve.evaluate }

/-- A number formatter that prints every number as `#`. -/
def sampleFmt : Double → String := fun _ => "#"

/-- The origin pose. -/
def originState : CarState Double :=
  { x := Double.lit 0 1, y := Double.lit 0 1, theta := Double.lit 0 1 }

/-- The binary64 value of the constant `M_PI`, `3.141592653589793`. -/
def piDouble : Double := Double.finite false 7074237752028440 (-51)

/-- The largest power of two among the doubles, `2^1023`. -/
def bigDouble : Double := Double.finite false 4503599627370496 971

/-- The smallest positive double, `2^-1074` (printed `5e-324`). -/
def tinyDouble : Double := Double.finite false 1 (-1074)

/-- The arc lengths of the binary64 run at `v = 1.0`, `dt = 0.1`, `L = 1.0`, printed
`0, 0.1, 0.2, 0.30000000000000004, 0.4, 0.5, 0.6, 0.7, 0.7999999999999999,
0.8999999999999999, 0.9999999999999999`. -/
def unitRunCalls : List Double :=
  [Double.finite false 0 (-1074),
   Double.finite false 7205759403792794 (-56),
   Double.finite false 7205759403792794 (-55),
   Double.finite false 5404319552844596 (-54),
   Double.finite false 7205759403792794 (-54),
   Double.finite false 4503599627370496 (-53),
   Double.finite false 5404319552844595 (-53),
   Double.finite false 6305039478318694 (-53),
   Double.finite false 7205759403792793 (-53),
   Double.finite false 8106479329266892 (-53),
   Double.finite false 9007199254740991 (-53)]

/-- A fit that reports non-convergence (`false`) and leaves `sampleCurve` in the
object. -/
def failedFit : Double → Double → Double → Double → Double → Double →
    Bool × ClothoidCurve Double :=
  fun _ _ _ _ _ _ => (false, sampleCurve)

set_option exponentiation.threshold 4096

set_option maxRecDepth 100000

/-! ## Reference values of the binary64 arithmetic -/

/-- The binary64 instance reproduces the IEEE results: `0.1` is `0x1.999999999999ap-4`;
`0.1 + 0.2` and `0.1 * 3` are `0.30000000000000004`, not `0.3`; `1 / 3` is
`0x1.5555555555555p-2`; `2^53 + 1` is `2^53` and `2^53 + 3` is `2^53 + 4` (ties to
even); `2^1023 * 2` overflows to `+inf`; `2^-1074 * 0.5` underflows to `0` and
`2^-1074 * 0.75` is `2^-1074`; `1 / 0` is `+inf`, `0 / 0` and `inf - inf` are NaN, and
NaN compares false; `-0` and `0` compare equal. -/
theorem binary64_reference_values :
    Double.lit 1 10 = Double.finite false 7205759403792794 (-56) ∧
    Double.lit 3 10 = Double.finite false 5404319552844595 (-54) ∧
    Double.add (Double.lit 1 10) (Double.lit 2 10) =
      Double.finite false 5404319552844596 (-54) ∧
    Double.mul (Double.lit 1 10) (Double.lit 3 1) =
      Double.finite false 5404319552844596 (-54) ∧
    Double.div (Double.lit 1 1) (Double.lit 3 1) =
      Double.finite false 6004799503160661 (-54) ∧
    Double.add (Double.lit 1 10) (Double.lit (-3) 10) =
      Double.finite true 7205759403792793 (-55) ∧
    Double.add (Double.lit 9007199254740992 1) (Double.lit 1 1) =
      Double.lit 9007199254740992 1 ∧
    Double.add (Double.lit 9007199254740992 1) (Double.lit 3 1) =
      Double.lit 9007199254740996 1 ∧
    Double.mul bigDouble (Double.lit 2 1) = Double.inf false ∧
    Double.mul tinyDouble (Double.lit 1 2) = Double.finite false 0 (-1074) ∧
    Double.mul tinyDouble (Double.lit 3 4) = tinyDouble ∧
    Double.div (Double.lit 1 1) (Double.lit 0 1) = Double.inf false ∧
    Double.div (Double.lit 0 1) (Double.lit 0 1) = Double.nan ∧
    Double.add (Double.inf false) (Double.inf true) = Double.nan ∧
    Double.le Double.nan Double.nan = false ∧
    Double.le (Double.neg (Double.lit 0 1)) (Double.lit 0 1) = true ∧
    Double.le (Double.lit 0 1) (Double.neg (Double.lit 0 1)) = true := by
  decide

/-! ## The driving loop -/

theorem loopIter_t {D : Type} (A : DoubleOps D) (evaluate : D → EvalOut D) (velocity dt : D)
    (n : Nat) : (loopIter A evaluate velocity dt n).t = loopTime A dt n := by
  induction n with
  | zero => rfl
  | succ n ih => simp only [loopIter, loopBody, loopTime, ih]

theorem loopIter_calls {D : Type} (A : DoubleOps D) (evaluate : D → EvalOut D)
    (velocity dt : D) (n : Nat) :
    (loopIter A evaluate velocity dt n).calls =
      (List.range n).map (fun k => A.mul velocity (loopTime A dt k)) := by
  induction n with
  | zero => rfl
  | succ n ih =>
    simp only [loopIter, loopBody, loopIter_t, ih, List.range_succ, List.map_append,
      List.map_cons, List.map_nil]

theorem loopIter_path {D : Type} (A : DoubleOps D) (evaluate : D → EvalOut D)
    (velocity dt : D) (n : Nat) :
    (loopIter A evaluate velocity dt n).path =
      (List.range n).map
        (fun k => (evaluate (A.mul velocity (loopTime A dt k))).toCarState) := by
  induction n with
  | zero => rfl
  | succ n ih =>
    simp only [loopIter, loopBody, loopIter_t, ih, List.range_succ, List.map_append,
      List.map_cons, List.map_nil]

theorem drivingLoop_exit {D : Type} (A : DoubleOps D) (evaluate : D → EvalOut D)
    (velocity dt total_time : D) :
    ∀ (n k fuel : Nat),
      (∀ i : Nat, i < n → A.le (loopTime A dt (k + i)) total_time = true) →
      A.le (loopTime A dt (k + n)) total_time = false →
      n < fuel →
      drivingLoop A evaluate velocity dt total_time fuel (loopIter A evaluate velocity dt k) =
        some (loopIter A evaluate velocity dt (k + n)) := by
  intro n
  induction n with
  | zero =>
    intro k fuel _ hstop hfuel
    obtain ⟨f, rfl⟩ : ∃ f, fuel = f + 1 := ⟨fuel - 1, by omega⟩
    simp only [Nat.add_zero] at hstop
    simp [drivingLoop, loopIter_t, hstop]
  | succ n ih =>
    intro k fuel hgo hstop hfuel
    obtain ⟨f, rfl⟩ : ∃ f, fuel = f + 1 := ⟨fuel - 1, by omega⟩
    have hg : A.le (loopTime A dt k) total_time = true := by
      simpa using hgo 0 (Nat.succ_pos n)
    have hgo2 : ∀ i : Nat, i < n → A.le (loopTime A dt (k + 1 + i)) total_time = true := by
      intro i hi
      have h := hgo (i + 1) (Nat.succ_lt_succ hi)
      rwa [show k + 1 + i = k + (i + 1) by omega]
    have hstop2 : A.le (loopTime A dt (k + 1 + n)) total_time = false := by
      rwa [show k + 1 + n = k + (n + 1) by omega]
    have key := ih (k + 1) f hgo2 hstop2 (by omega)
    simp only [drivingLoop, loopIter_t, hg, if_true]
    rw [show k + (n + 1) = k + 1 + n by omega, ← key]
    rfl

theorem drivingLoop_some {D : Type} (A : DoubleOps D) (evaluate : D → EvalOut D)
    (velocity dt total_time : D) :
    ∀ (fuel k : Nat) (st : LoopState D),
      drivingLoop A evaluate velocity dt total_time fuel (loopIter A evaluate velocity dt k) =
        some st →
      ∃ n, n < fuel ∧
        (∀ i : Nat, i < n → A.le (loopTime A dt (k + i)) total_time = true) ∧
        A.le (loopTime A dt (k + n)) total_time = false ∧
        st = loopIter A evaluate velocity dt (k + n) := by
  intro fuel
  induction fuel with
  | zero =>
    intro k st h
    simp [drivingLoop] at h
  | succ f ih =>
    intro k st h
    simp only [drivingLoop, loopIter_t] at h
    by_cases hg : A.le (loopTime A dt k) total_time = true
    · simp only [hg, if_true] at h
      obtain ⟨n, hn, hgo, hstop, hst⟩ := ih (k + 1) st h
      refine ⟨n + 1, by omega, ?_, ?_, ?_⟩
      · intro i hi
        cases i with
        | zero => simpa using hg
        | succ j =>
          have := hgo j (by omega)
          rwa [show k + (j + 1) = k + 1 + j by omega]
      · rwa [show k + (n + 1) = k + 1 + n by omega]
      · rw [hst, show k + (n + 1) = k + 1 + n by omega]
    · simp only [hg, if_false] at h
      refine ⟨0, by omega, ?_, ?_, ?_⟩
      · intro i hi
        omega
      · simpa using hg
      · cases h
        rfl

/-- The output record that `simulate` builds from the loop state after `n` passes. -/
theorem simulate_some_iff {D : Type} (A : DoubleOps D) (fmt : D → String) (popenOk : Bool)
    (start end_ : CarState D) (clothoid : ClothoidCurve D) (velocity dt : D)
    (fuel : Nat) (out : MainOut D) :
    simulate A fmt popenOk start end_ clothoid velocity dt fuel = some out ↔
      ∃ n, n < fuel ∧
        (∀ i : Nat, i < n →
          A.le (loopTime A dt i) (A.div clothoid.length velocity) = true) ∧
        A.le (loopTime A dt n) (A.div clothoid.length velocity) = false ∧
        out.calls = (List.range n).map (fun k => A.mul velocity (loopTime A dt k)) ∧
        out.path = (List.range n).map
          (fun k => (clothoid.evaluate (A.mul velocity (loopTime A dt k))).toCarState) ∧
        out.gnuplot = plot_simulation_interactive fmt popenOk out.path start end_ := by
  have h0 : ({ t := A.lit 0 1, path := [], calls := [] } : LoopState D) =
      loopIter A clothoid.evaluate velocity dt 0 := rfl
  constructor
  · intro h
    unfold simulate at h
    simp only [h0] at h
    cases hd : drivingLoop A clothoid.evaluate velocity dt (A.div clothoid.length velocity)
        fuel (loopIter A clothoid.evaluate velocity dt 0) with
    | none =>
      rw [hd] at h
      cases h
    | some st =>
      rw [hd] at h
      obtain ⟨n, hn, hgo, hstop, hst⟩ := drivingLoop_some A _ _ _ _ fuel 0 st hd
      simp only [Nat.zero_add] at hgo hstop hst
      cases h
      refine ⟨n, hn, hgo, hstop, ?_, ?_, rfl⟩
      · rw [hst, loopIter_calls]
      · rw [hst, loopIter_path]
  · rintro ⟨n, hn, hgo, hstop, hc, hp, hg⟩
    have hd := drivingLoop_exit A clothoid.evaluate velocity dt
      (A.div clothoid.length velocity) n 0 fuel (by simpa using hgo) (by simpa using hstop) hn
    unfold simulate
    simp only [h0, hd, Nat.zero_add, loopIter_calls, loopIter_path]
    cases out with
    | mk c p g =>
      simp only at hc hp hg
      rw [hc, hp, hg, hp]

theorem simulate_returns {D : Type} (A : DoubleOps D) (fmt : D → String) (popenOk : Bool)
    (start end_ : CarState D) (clothoid : ClothoidCurve D) (velocity dt : D)
    (h : ∃ n, A.le (loopTime A dt n) (A.div clothoid.length velocity) = false) :
    ∃ fuel out, simulate A fmt popenOk start end_ clothoid velocity dt fuel = some out := by
  classical
  have hmin := Nat.find_spec h
  have hlt : ∀ i, i < Nat.find h →
      A.le (loopTime A dt i) (A.div clothoid.length velocity) = true := by
    intro i hi
    have := Nat.find_min h hi
    simpa using this
  refine ⟨Nat.find h + 1,
    { calls := (List.range (Nat.find h)).map (fun k => A.mul velocity (loopTime A dt k))
      path := (List.range (Nat.find h)).map
        (fun k => (clothoid.evaluate (A.mul velocity (loopTime A dt k))).toCarState)
      gnuplot := plot_simulation_interactive fmt popenOk
        ((List.range (Nat.find h)).map
          (fun k => (clothoid.evaluate (A.mul velocity (loopTime A dt k))).toCarState))
        start end_ }, ?_⟩
  exact (simulate_some_iff A fmt popenOk start end_ clothoid velocity dt
    (Nat.find h + 1) _).mpr ⟨Nat.find h, Nat.lt_succ_self _, hlt, hmin, rfl, rfl, rfl⟩

theorem drivingLoop_congr {D : Type} (A : DoubleOps D) (e1 e2 : D → EvalOut D)
    (velocity dt total_time : D)
    (h : ∀ s, (e1 s).toCarState = (e2 s).toCarState) :
    ∀ (fuel : Nat) (st : LoopState D),
      drivingLoop A e1 velocity dt total_time fuel st =
        drivingLoop A e2 velocity dt total_time fuel st := by
  intro fuel
  induction fuel with
  | zero =>
    intro st
    rfl
  | succ f ih =>
    intro st
    have hb : loopBody A e1 velocity dt st = loopBody A e2 velocity dt st := by
      simp only [loopBody, h]
    simp only [drivingLoop, hb, ih]

/-! ## The gnuplot writers -/

/-- C4 refuted as stated: with a fit that reports non-convergence, `main` (in binary64)
still evaluates the curve at `0`, `0.1`, `0.2`, stores the three poses and sends them
to the gnuplot pipe. -/
theorem nonconverged_fit_is_sampled :
    (failedFit (Double.lit 2 1) (Double.lit 5 10) (Double.div piDouble (Double.lit 4 1))
      (Double.lit 5 1) (Double.lit 3 1)
      (Double.div (Double.neg piDouble) (Double.lit 6 1))).1 = false ∧
    (main binary64 piDouble failedFit sampleFmt true 4).map
        (fun o => (o.calls, o.path, o.gnuplot.isSome)) =
      some ([Double.lit 0 1, Double.lit 1 10, Double.lit 2 10],
        [{ x := Double.lit 0 1, y := Double.lit 0 1, theta := Double.lit 0 1 },
         { x := Double.lit 1 10, y := Double.lit 0 1, theta := Double.lit 1 10 },
         { x := Double.lit 2 10, y := Double.lit 0 1, theta := Double.lit 2 10 }],
        true) := by
  refine ⟨rfl, ?_⟩
  decide

/-- C4 as amended: `main` discards the status returned by `build_G1`.  Replacing the
reported status by any other leaves the run unchanged; whatever the status, a run that
leaves the loop hands its path, one pose per `evaluate` call, to
`plot_simulation_interactive`, and the run leaves the loop as soon as one loop time
fails the guard. -/
theorem main_ignores_fit_status {D : Type} (A : DoubleOps D) (M_PI : D)
    (build_G1 : D → D → D → D → D → D → Bool × ClothoidCurve D)
    (status : D → D → D → D → D → D → Bool)
    (fmt : D → String) (popenOk : Bool) :
    (∀ fuel, main A M_PI (fun a b c d e f => (status a b c d e f, (build_G1 a b c d e f).2))
        fmt popenOk fuel = main A M_PI build_G1 fmt popenOk fuel) ∧
    (∀ fuel out, main A M_PI build_G1 fmt popenOk fuel = some out →
      out.path.length = out.calls.length ∧
      out.gnuplot = plot_simulation_interactive fmt popenOk out.path
        { x := A.lit 2 1, y := A.lit 5 10, theta := A.div M_PI (A.lit 4 1) }
        { x := A.lit 5 1, y := A.lit 3 1, theta := A.div (A.neg M_PI) (A.lit 6 1) } ∧
      out.gnuplot.isSome = popenOk) ∧
    ((∃ n, A.le (loopTime A (A.lit 1 10) n)
        (A.div (build_G1 (A.lit 2 1) (A.lit 5 10) (A.div M_PI (A.lit 4 1)) (A.lit 5 1)
          (A.lit 3 1) (A.div (A.neg M_PI) (A.lit 6 1))).2.length (A.lit 1 1)) = false) →
      ∃ fuel out, main A M_PI build_G1 fmt popenOk fuel = some out) := by
  refine ⟨fun fuel => rfl, ?_, ?_⟩
  · intro fuel out h
    unfold main at h
    simp only at h
    obtain ⟨n, _, _, _, hc, hp, hg⟩ := (simulate_some_iff A fmt popenOk _ _ _ _ _ fuel out).mp h
    refine ⟨?_, hg, ?_⟩
    · simp [hc, hp]
    · rw [hg]
      cases popenOk <;> simp [plot_simulation_interactive]
  · intro h
    exact simulate_returns A fmt popenOk _ _ _ _ _ h

/-- Instance of the amended C4 in binary64 with the fit `failedFit`. -/
theorem main_ignores_fit_status_witness :
    ∃ out, main binary64 piDouble failedFit sampleFmt true 4 = some out ∧
      out.path.length = out.calls.length ∧
      out.gnuplot = plot_simulation_interactive sampleFmt true out.path
        { x := Double.lit 2 1, y := Double.lit 5 10,
          theta := Double.div piDouble (Double.lit 4 1) }
        { x := Double.lit 5 1, y := Double.lit 3 1,
          theta := Double.div (Double.neg piDouble) (Double.lit 6 1) } ∧
      out.gnuplot.isSome = true := by
  have hs : (main binary64 piDouble failedFit sampleFmt true 4).isSome = true := by decide
  obtain ⟨out, hout⟩ := Option.isSome_iff_exists.mp hs
  exact ⟨out, hout, (main_ignores_fit_status binary64 piDouble failedFit
    (fun _ _ _ _ _ _ => true) sampleFmt true).2.1 4 out hout⟩

/-- C8 refuted as stated: two curves whose evaluation differs in `kappa` at every
sample give the same run, with the same path and the same text sent to gnuplot. -/
theorem kappa_not_handed_off :
    (∀ s, (sampleCurve.evaluate s).kappa ≠ (curvedSample.evaluate s).kappa) ∧
    simulate binary64 sampleFmt true originState originState sampleCurve
        (Double.lit 1 1) (Double.lit 1 10) 4 =
      simulate binary64 sampleFmt true originState originState curvedSample
        (Double.lit 1 1) (Double.lit 1 10) 4 ∧
    (simulate binary64 sampleFmt true originState originState sampleCurve
        (Double.lit 1 1) (Double.lit 1 10) 4).map (fun o => o.path) =
      some [{ x := Double.lit 0 1, y := Double.lit 0 1, theta := Double.lit 0 1 },
            { x := Double.lit 1 10, y := Double.lit 0 1, theta := Double.lit 1 10 },
            { x := Double.lit 2 10, y := Double.lit 0 1, theta := Double.lit 2 10 }] := by
  refine ⟨?_, ?_, ?_⟩
  · intro s
    simp only [sampleCurve, curvedSample]
    decide
  · decide
  · decide

/-- C8 as amended: every element handed to the renderer is a `CarState`, that is the
`(x, y, theta)` of one `evaluate` result, in call order; `t`, `s` and `kappa` are not
part of it.  Two curves of equal length whose evaluations agree in `x`, `y` and `theta`
give the same run, whatever their `kappa`. -/
theorem handed_path_carries_pose_only {D : Type} (A : DoubleOps D) (fmt : D → String)
    (popenOk : Bool) (start end_ : CarState D) (c1 c2 : ClothoidCurve D) (v dt : D)
    (hlen : c1.length = c2.length)
    (hpose : ∀ s, (c1.evaluate s).x = (c2.evaluate s).x ∧
      (c1.evaluate s).y = (c2.evaluate s).y ∧
      (c1.evaluate s).theta = (c2.evaluate s).theta) :
    (∀ fuel, simulate A fmt popenOk start end_ c1 v dt fuel =
      simulate A fmt popenOk start end_ c2 v dt fuel) ∧
    ∀ fuel out, simulate A fmt popenOk start end_ c1 v dt fuel = some out →
      out.path = out.calls.map
        (fun s => { x := (c1.evaluate s).x, y := (c1.evaluate s).y,
                    theta := (c1.evaluate s).theta }) ∧
      out.gnuplot = plot_simulation_interactive fmt popenOk out.path start end_ := by
  have h : ∀ s, (c1.evaluate s).toCarState = (c2.evaluate s).toCarState := by
    intro s
    obtain ⟨hx, hy, ht⟩ := hpose s
    simp only [EvalOut.toCarState, hx, hy, ht]
  refine ⟨?_, ?_⟩
  · intro fuel
    simp only [simulate, hlen, drivingLoop_congr A c1.evaluate c2.evaluate v dt _ h]
  · intro fuel out ho
    obtain ⟨n, _, _, _, hc, hp, hg⟩ :=
      (simulate_some_iff A fmt popenOk start end_ c1 v dt fuel out).mp ho
    refine ⟨?_, hg⟩
    rw [hc, hp, List.map_map]
    rfl

/-- Instance of the amended C8 at `sampleCurve` and `curvedSample`. -/
theorem handed_path_carries_pose_only_witness :
    sampleCurve.length = curvedSample.length ∧
    (∀ s, (sampleCurve.evaluate s).x = (curvedSample.evaluate s).x ∧
      (sampleCurve.evaluate s).y = (curvedSample.evaluate s).y ∧
      (sampleCurve.evaluate s).theta = (curvedSample.evaluate s).theta) ∧
    ((∀ fuel, simulate binary64 sampleFmt true originState originState sampleCurve
        (Double.lit 1 1) (Double.lit 1 10) fuel =
      simulate binary64 sampleFmt true originState originState curvedSample
        (Double.lit 1 1) (Double.lit 1 10) fuel) ∧
    ∀ fuel out, simulate binary64 sampleFmt true originState originState sampleCurve
        (Double.lit 1 1) (Double.lit 1 10) fuel = some out →
      out.path = out.calls.map
        (fun s => { x := (sampleCurve.evaluate s).x, y := (sampleCurve.evaluate s).y,
                    theta := (sampleCurve.evaluate s).theta }) ∧
      out.gnuplot = plot_simulation_interactive sampleFmt true out.path
        originState originState) :=
  ⟨rfl, fun _ => ⟨rfl, rfl, rfl⟩,
    handed_path_carries_pose_only binary64 sampleFmt true originState originState
      sampleCurve curvedSample (Double.lit 1 1) (Double.lit 1 10) rfl
      (fun _ => ⟨rfl, rfl, rfl⟩)⟩

/-! ## Signs in binary64 -/

theorem lit_zero : Double.lit 0 1 = Double.finite false 0 (-1074) := by decide

theorem roundMagnitude_zero (d : Nat) : roundMagnitude 0 d = some (0, -1074) := by
  simp [roundMagnitude]

theorem pos_cases (v : Double) (hf : v.isFinite = true)
    (hv : Double.lt (Double.lit 0 1) v = true) :
    ∃ m e, v = Double.finite false m e ∧ m ≠ 0 := by
  cases v with
  | nan => simp [Double.isFinite] at hf
  | inf s => simp [Double.isFinite] at hf
  | finite s m e =>
    rw [lit_zero] at hv
    simp only [Double.lt, Double.le, Bool.and_eq_true, decide_eq_true_eq, Bool.not_eq_true',
      decide_eq_false_iff_not, not_le] at hv
    obtain ⟨_, h2⟩ := hv
    cases s with
    | true =>
      exfalso
      simp only [Double.signed, if_true, if_false, Bool.false_eq_true] at h2
      have : (0 : Int) ≤ ((m * 2 ^ (e - min e (-1074)).toNat : Nat) : Int) := Int.natCast_nonneg _
      have h3 : (((0 * 2 ^ (-1074 - min e (-1074)).toNat : Nat)) : Int) = 0 := by simp
      omega
    | false =>
      refine ⟨m, e, rfl, ?_⟩
      intro hm
      subst hm
      simp [Double.signed] at h2

theorem bitLength_spec : ∀ (fuel n : Nat), n ≤ fuel → 0 < n →
    0 < bitLength fuel n ∧ 2 ^ (bitLength fuel n - 1) ≤ n ∧ n < 2 ^ bitLength fuel n := by
  intro fuel
  induction fuel with
  | zero =>
    intro n h1 h2
    omega
  | succ f ih =>
    intro n h1 h2
    have hn : n ≠ 0 := by omega
    simp only [bitLength, hn, if_false]
    by_cases hbig : 2 ^ 32 ≤ n
    · simp only [hbig, if_true]
      have hq : 0 < n / 2 ^ 32 := Nat.div_pos hbig (by norm_num)
      have hle : n / 2 ^ 32 ≤ f := by
        have : n / 2 ^ 32 < n := Nat.div_lt_self h2 (by norm_num)
        omega
      obtain ⟨hb, hlo, hhi⟩ := ih (n / 2 ^ 32) hle hq
      refine ⟨by omega, ?_, ?_⟩
      · have h3 : bitLength f (n / 2 ^ 32) + 32 - 1 = (bitLength f (n / 2 ^ 32) - 1) + 32 := by
          omega
        rw [h3, pow_add]
        calc 2 ^ (bitLength f (n / 2 ^ 32) - 1) * 2 ^ 32 ≤ (n / 2 ^ 32) * 2 ^ 32 :=
              Nat.mul_le_mul_right _ hlo
          _ ≤ n := Nat.div_mul_le_self n (2 ^ 32)
      · rw [pow_add]
        exact (Nat.div_lt_iff_lt_mul (by norm_num)).mp hhi
    · simp only [hbig, if_false]
      by_cases h1n : n = 1
      · subst h1n
        have : bitLength f (1 / 2) = 0 := by
          cases f <;> simp [bitLength]
        simp [this]
      · have hq : 0 < n / 2 := Nat.div_pos (by omega) (by norm_num)
        have hle : n / 2 ≤ f := by omega
        obtain ⟨hb, hlo, hhi⟩ := ih (n / 2) hle hq
        refine ⟨by omega, ?_, ?_⟩
        · have h3 : bitLength f (n / 2) + 1 - 1 = (bitLength f (n / 2) - 1) + 1 := by omega
          rw [h3, pow_succ]
          omega
        · rw [pow_succ]
          omega

theorem log2_spec (n : Nat) (h : 0 < n) : 2 ^ log2 n ≤ n ∧ n < 2 ^ (log2 n + 1) := by
  obtain ⟨hb, hlo, hhi⟩ := bitLength_spec n n (le_refl n) h
  unfold log2
  refine ⟨hlo, ?_⟩
  rwa [Nat.sub_add_cancel hb]

theorem scale_pos (n d : Nat) (e : Int) (hd : 0 < d) : 0 < (scale n d e).2 := by
  unfold scale
  split
  · exact Nat.mul_pos hd (by positivity)
  · exact hd

theorem scale_val (n d : Nat) (e : Int) (hd : 0 < d) :
    ((scale n d e).1 : ℚ) / ((scale n d e).2 : ℚ) = ((n : ℚ) / d) / (2 : ℚ) ^ e := by
  have hd' : (d : ℚ) ≠ 0 := by exact_mod_cast hd.ne'
  unfold scale
  split
  · rename_i he
    have : ((e.toNat : Int)) = e := Int.toNat_of_nonneg he
    push_cast
    rw [← zpow_natCast, this, div_div]
  · rename_i he
    have : (((-e).toNat : Int)) = -e := Int.toNat_of_nonneg (by omega)
    push_cast
    rw [← zpow_natCast, this, zpow_neg]
    field_simp
    left
    ring

theorem roundHalfEven_ge (n d k : Nat) (hd : 0 < d) (h : k * d ≤ n) :
    k ≤ roundHalfEven n d := by
  have hq : k ≤ n / d := (Nat.le_div_iff_mul_le hd).mpr h
  unfold roundHalfEven
  simp only
  split_ifs <;> omega

theorem roundHalfEven_le (n d k : Nat) (hd : 0 < d) (h : n ≤ k * d) :
    roundHalfEven n d ≤ k := by
  have hdm := Nat.div_add_mod n d
  have hml := Nat.mod_lt n hd
  unfold roundHalfEven
  simp only
  have hq : n / d ≤ k := by
    calc n / d ≤ k * d / d := Nat.div_le_div_right h
      _ = k := Nat.mul_div_cancel k hd
  rcases Nat.lt_or_ge (n / d) k with hlt | hge
  · split_ifs <;> omega
  · have hqk : n / d = k := by omega
    have hm0 : n % d = 0 := by
      have : d * k + n % d ≤ k * d := by rw [← hqk]; rw [hdm]; rw [hqk]; exact h
      have : d * k = k * d := Nat.mul_comm d k
      omega
    simp [hm0, hd, hqk]

theorem two_zpow_pos (e : Int) : (0 : ℚ) < (2 : ℚ) ^ e := zpow_pos (by norm_num) e

theorem two_zpow_le {a b : Int} (h : a ≤ b) : (2 : ℚ) ^ a ≤ (2 : ℚ) ^ b :=
  zpow_le_zpow_right₀ (by norm_num) h

theorem cast_le_zpow53 (m : Nat) (h : m ≤ 2 ^ 53) : (m : ℚ) ≤ (2 : ℚ) ^ (53 : Int) := by
  have h1 : ((m : Nat) : ℚ) ≤ ((2 ^ 53 : Nat) : ℚ) := by exact_mod_cast h
  calc (m : ℚ) ≤ ((2 ^ 53 : Nat) : ℚ) := h1
    _ = (2 : ℚ) ^ (53 : Int) := by norm_num

theorem zpow52_le_cast (m : Nat) (h : 2 ^ 52 ≤ m) : (2 : ℚ) ^ (52 : Int) ≤ (m : ℚ) := by
  have h1 : ((2 ^ 52 : Nat) : ℚ) ≤ ((m : Nat) : ℚ) := by exact_mod_cast h
  calc (2 : ℚ) ^ (52 : Int) = ((2 ^ 52 : Nat) : ℚ) := by norm_num
    _ ≤ (m : ℚ) := h1

theorem floorLog2_spec (n d : Nat) (hn : 0 < n) (hd : 0 < d) :
    (2 : ℚ) ^ floorLog2 n d ≤ (n : ℚ) / d ∧ (n : ℚ) / d < (2 : ℚ) ^ (floorLog2 n d + 1) := by
  obtain ⟨ha1, ha2⟩ := log2_spec n hn
  obtain ⟨hb1, hb2⟩ := log2_spec d hd
  have hdq : (0 : ℚ) < d := by exact_mod_cast hd
  have ha1q : (2 : ℚ) ^ (log2 n : Int) ≤ n := by
    rw [zpow_natCast]; exact_mod_cast ha1
  have ha2q : (n : ℚ) < (2 : ℚ) ^ ((log2 n : Int) + 1) := by
    rw [show ((log2 n : Int) + 1) = ((log2 n + 1 : Nat) : Int) by push_cast; rfl, zpow_natCast]
    exact_mod_cast ha2
  have hb1q : (2 : ℚ) ^ (log2 d : Int) ≤ d := by
    rw [zpow_natCast]; exact_mod_cast hb1
  have hb2q : (d : ℚ) < (2 : ℚ) ^ ((log2 d : Int) + 1) := by
    rw [show ((log2 d : Int) + 1) = ((log2 d + 1 : Nat) : Int) by push_cast; rfl, zpow_natCast]
    exact_mod_cast hb2
  -- bounds of the quotient by the difference of the logarithms
  have hup : (n : ℚ) / d < (2 : ℚ) ^ ((log2 n : Int) - (log2 d : Int) + 1) := by
    rw [div_lt_iff₀ hdq]
    have : (2 : ℚ) ^ ((log2 n : Int) - (log2 d : Int) + 1) * (2 : ℚ) ^ (log2 d : Int) =
        (2 : ℚ) ^ ((log2 n : Int) + 1) := by
      rw [← zpow_add₀ (by norm_num : (2 : ℚ) ≠ 0)]
      congr 1
      ring
    calc (n : ℚ) < (2 : ℚ) ^ ((log2 n : Int) + 1) := ha2q
      _ = (2 : ℚ) ^ ((log2 n : Int) - (log2 d : Int) + 1) * (2 : ℚ) ^ (log2 d : Int) := this.symm
      _ ≤ (2 : ℚ) ^ ((log2 n : Int) - (log2 d : Int) + 1) * d :=
        mul_le_mul_of_nonneg_left hb1q (le_of_lt (two_zpow_pos _))
  have hlo : (2 : ℚ) ^ ((log2 n : Int) - (log2 d : Int) - 1) ≤ (n : ℚ) / d := by
    rw [le_div_iff₀ hdq]
    have : (2 : ℚ) ^ ((log2 n : Int) - (log2 d : Int) - 1) * (2 : ℚ) ^ ((log2 d : Int) + 1) =
        (2 : ℚ) ^ (log2 n : Int) := by
      rw [← zpow_add₀ (by norm_num : (2 : ℚ) ≠ 0)]
      congr 1
      ring
    calc (2 : ℚ) ^ ((log2 n : Int) - (log2 d : Int) - 1) * d
        ≤ (2 : ℚ) ^ ((log2 n : Int) - (log2 d : Int) - 1) * (2 : ℚ) ^ ((log2 d : Int) + 1) :=
          mul_le_mul_of_nonneg_left (le_of_lt hb2q) (le_of_lt (two_zpow_pos _))
      _ = (2 : ℚ) ^ (log2 n : Int) := this
      _ ≤ n := ha1q
  unfold floorLog2
  simp only
  have hsv := scale_val n d ((log2 n : Int) - (log2 d : Int)) hd
  have hsp := scale_pos n d ((log2 n : Int) - (log2 d : Int)) hd
  have hspq : (0 : ℚ) < ((scale n d ((log2 n : Int) - (log2 d : Int))).2 : ℚ) := by
    exact_mod_cast hsp
  split
  · rename_i hle
    refine ⟨?_, hup⟩
    have h1 : (1 : ℚ) ≤ ((scale n d ((log2 n : Int) - (log2 d : Int))).1 : ℚ) /
        ((scale n d ((log2 n : Int) - (log2 d : Int))).2 : ℚ) := by
      rw [le_div_iff₀ hspq, one_mul]
      exact_mod_cast hle
    rw [hsv, le_div_iff₀ (two_zpow_pos _), one_mul] at h1
    exact h1
  · rename_i hle
    refine ⟨hlo, ?_⟩
    have h1 : ((scale n d ((log2 n : Int) - (log2 d : Int))).1 : ℚ) /
        ((scale n d ((log2 n : Int) - (log2 d : Int))).2 : ℚ) < 1 := by
      rw [div_lt_iff₀ hspq, one_mul]
      exact_mod_cast (not_le.mp hle)
    rw [hsv, div_lt_iff₀ (two_zpow_pos _), one_mul] at h1
    rw [show (log2 n : Int) - (log2 d : Int) - 1 + 1 = (log2 n : Int) - (log2 d : Int) by ring]
    exact h1

theorem roundExponent_ge (n d : Nat) : -1074 ≤ roundExponent n d := by
  unfold roundExponent
  exact le_max_right _ _

theorem roundExponent_cases (n d : Nat) :
    roundExponent n d = floorLog2 n d - 52 ∨
      (roundExponent n d = -1074 ∧ floorLog2 n d - 52 ≤ -1074) := by
  unfold roundExponent
  rcases le_total (floorLog2 n d - 52) (-1074) with h | h
  · right
    exact ⟨max_eq_right h, h⟩
  · left
    exact max_eq_left h

theorem roundSignificand_val_le (n d k : Nat) (hd : 0 < d)
    (h : (n : ℚ) / d ≤ (k : ℚ) * (2 : ℚ) ^ roundExponent n d) : roundSignificand n d ≤ k := by
  unfold roundSignificand
  simp only
  have hsp := scale_pos n d (roundExponent n d) hd
  have hspq : (0 : ℚ) < ((scale n d (roundExponent n d)).2 : ℚ) := by exact_mod_cast hsp
  apply roundHalfEven_le _ _ _ hsp
  have h1 : ((scale n d (roundExponent n d)).1 : ℚ) / ((scale n d (roundExponent n d)).2 : ℚ)
      ≤ k := by
    rw [scale_val n d _ hd, div_le_iff₀ (two_zpow_pos _)]
    exact h
  rw [div_le_iff₀ hspq] at h1
  exact_mod_cast h1

theorem roundSignificand_val_ge (n d k : Nat) (hd : 0 < d)
    (h : (k : ℚ) * (2 : ℚ) ^ roundExponent n d ≤ (n : ℚ) / d) : k ≤ roundSignificand n d := by
  unfold roundSignificand
  simp only
  have hsp := scale_pos n d (roundExponent n d) hd
  have hspq : (0 : ℚ) < ((scale n d (roundExponent n d)).2 : ℚ) := by exact_mod_cast hsp
  apply roundHalfEven_ge _ _ _ hsp
  have h1 : (k : ℚ) ≤
      ((scale n d (roundExponent n d)).1 : ℚ) / ((scale n d (roundExponent n d)).2 : ℚ) := by
    rw [scale_val n d _ hd, le_div_iff₀ (two_zpow_pos _)]
    exact h
  rw [le_div_iff₀ hspq] at h1
  exact_mod_cast h1

theorem roundSignificand_le (n d : Nat) (hn : 0 < n) (hd : 0 < d) :
    roundSignificand n d ≤ 2 ^ 53 := by
  apply roundSignificand_val_le n d _ hd
  obtain ⟨_, hhi⟩ := floorLog2_spec n d hn hd
  have he : floorLog2 n d + 1 ≤ 53 + roundExponent n d := by
    rcases roundExponent_cases n d with h | ⟨h, h2⟩ <;> omega
  calc (n : ℚ) / d ≤ (2 : ℚ) ^ (floorLog2 n d + 1) := le_of_lt hhi
    _ ≤ (2 : ℚ) ^ (53 + roundExponent n d) := two_zpow_le he
    _ = ((2 ^ 53 : Nat) : ℚ) * (2 : ℚ) ^ roundExponent n d := by
      rw [zpow_add₀ (by norm_num : (2 : ℚ) ≠ 0)]
      norm_num

theorem roundSignificand_ge (n d : Nat) (hn : 0 < n) (hd : 0 < d)
    (he : -1074 < roundExponent n d) : 2 ^ 52 ≤ roundSignificand n d := by
  apply roundSignificand_val_ge n d _ hd
  obtain ⟨hlo, _⟩ := floorLog2_spec n d hn hd
  have hE : roundExponent n d = floorLog2 n d - 52 := by
    rcases roundExponent_cases n d with h | ⟨h, h2⟩
    · exact h
    · omega
  calc ((2 ^ 52 : Nat) : ℚ) * (2 : ℚ) ^ roundExponent n d
      = (2 : ℚ) ^ (52 + roundExponent n d) := by
        rw [zpow_add₀ (by norm_num : (2 : ℚ) ≠ 0)]
        norm_num
    _ = (2 : ℚ) ^ floorLog2 n d := by
        congr 1
        omega
    _ ≤ (n : ℚ) / d := hlo

theorem roundedValue_ge (n d m : Nat) (e : Int) (hn : 0 < n) (hd : 0 < d)
    (hm : m < 2 ^ 53) (he : -1074 ≤ e) (h : (m : ℚ) * (2 : ℚ) ^ e ≤ (n : ℚ) / d) :
    (m : ℚ) * (2 : ℚ) ^ e ≤ roundedValue n d := by
  unfold roundedValue
  rcases lt_or_le e (roundExponent n d) with hlt | hle
  · have hM := roundSignificand_ge n d hn hd (lt_of_le_of_lt he hlt)
    have hMq := zpow52_le_cast _ hM
    have hmq := cast_le_zpow53 m (le_of_lt hm)
    calc (m : ℚ) * (2 : ℚ) ^ e ≤ (2 : ℚ) ^ (53 : Int) * (2 : ℚ) ^ e :=
          mul_le_mul_of_nonneg_right hmq (le_of_lt (two_zpow_pos _))
      _ = (2 : ℚ) ^ (53 + e) := by rw [zpow_add₀ (by norm_num : (2 : ℚ) ≠ 0)]
      _ ≤ (2 : ℚ) ^ (52 + roundExponent n d) := two_zpow_le (by omega)
      _ = (2 : ℚ) ^ (52 : Int) * (2 : ℚ) ^ roundExponent n d := by
          rw [zpow_add₀ (by norm_num : (2 : ℚ) ≠ 0)]
      _ ≤ (roundSignificand n d : ℚ) * (2 : ℚ) ^ roundExponent n d :=
          mul_le_mul_of_nonneg_right hMq (le_of_lt (two_zpow_pos _))
  · -- the candidate is an integer multiple of the rounding unit
    have hk : (m : ℚ) * (2 : ℚ) ^ e =
        ((m * 2 ^ (e - roundExponent n d).toNat : Nat) : ℚ) * (2 : ℚ) ^ roundExponent n d := by
      have h1 : (((e - roundExponent n d).toNat : Nat) : Int) = e - roundExponent n d :=
        Int.toNat_of_nonneg (by omega)
      push_cast
      rw [← zpow_natCast, h1, mul_assoc, ← zpow_add₀ (by norm_num : (2 : ℚ) ≠ 0)]
      congr 2
      ring
    rw [hk]
    apply mul_le_mul_of_nonneg_right _ (le_of_lt (two_zpow_pos _))
    have := roundSignificand_val_ge n d (m * 2 ^ (e - roundExponent n d).toNat) hd
      (by rw [← hk]; exact h)
    exact_mod_cast this

theorem roundMagnitude_some (n d m : Nat) (e : Int) (hn : 0 < n) (hd : 0 < d)
    (h : roundMagnitude n d = some (m, e)) :
    (m : ℚ) * (2 : ℚ) ^ e = roundedValue n d ∧ m < 2 ^ 53 ∧ -1074 ≤ e ∧ e ≤ 971 := by
  have hn0 : n ≠ 0 := by omega
  have hM := roundSignificand_le n d hn hd
  have hE := roundExponent_ge n d
  unfold roundMagnitude at h
  simp only [hn0, if_false] at h
  by_cases hc : roundSignificand n d = 2 ^ 53
  · simp only [hc, if_true] at h
    split at h
    · cases h
    · rename_i h971
      simp only [Option.some.injEq, Prod.mk.injEq] at h
      obtain ⟨rfl, rfl⟩ := h
      refine ⟨?_, by norm_num, by omega, by omega⟩
      unfold roundedValue
      rw [hc, zpow_add₀ (by norm_num : (2 : ℚ) ≠ 0)]
      norm_num
      ring
  · simp only [hc, if_false] at h
    split at h
    · cases h
    · rename_i h971
      simp only [Option.some.injEq, Prod.mk.injEq] at h
      obtain ⟨rfl, rfl⟩ := h
      refine ⟨rfl, by omega, hE, by omega⟩

theorem regular_round (n d : Nat) (hd : 0 < d) : (Double.round false n d).regular = true := by
  unfold Double.round
  cases h : roundMagnitude n d with
  | none => rfl
  | some me =>
    obtain ⟨m, e⟩ := me
    rcases Nat.eq_zero_or_pos n with hn | hn
    · subst hn
      rw [roundMagnitude_zero] at h
      cases h
      rfl
    · obtain ⟨_, h1, h2, _⟩ := roundMagnitude_some n d m e hn hd h
      norm_num at h1
      simp [Double.regular, h1, h2]

theorem le_finite_iff (m1 m2 : Nat) (e1 e2 : Int) :
    Double.le (Double.finite false m1 e1) (Double.finite false m2 e2) = true ↔
      (m1 : ℚ) * (2 : ℚ) ^ e1 ≤ (m2 : ℚ) * (2 : ℚ) ^ e2 := by
  simp only [Double.le, Double.signed, if_false, Bool.false_eq_true, decide_eq_true_eq]
  have h1 : (((e1 - min e1 e2).toNat : Nat) : Int) = e1 - min e1 e2 :=
    Int.toNat_of_nonneg (by omega)
  have h2 : (((e2 - min e1 e2).toNat : Nat) : Int) = e2 - min e1 e2 :=
    Int.toNat_of_nonneg (by omega)
  have k1 : (m1 : ℚ) * (2 : ℚ) ^ e1 =
      ((m1 * 2 ^ (e1 - min e1 e2).toNat : Nat) : ℚ) * (2 : ℚ) ^ (min e1 e2) := by
    push_cast
    rw [← zpow_natCast, h1, mul_assoc, ← zpow_add₀ (by norm_num : (2 : ℚ) ≠ 0)]
    congr 2
    ring
  have k2 : (m2 : ℚ) * (2 : ℚ) ^ e2 =
      ((m2 * 2 ^ (e2 - min e1 e2).toNat : Nat) : ℚ) * (2 : ℚ) ^ (min e1 e2) := by
    push_cast
    rw [← zpow_natCast, h2, mul_assoc, ← zpow_add₀ (by norm_num : (2 : ℚ) ≠ 0)]
    congr 2
    ring
  rw [k1, k2, mul_le_mul_right (two_zpow_pos _)]
  constructor
  · intro h
    exact_mod_cast h
  · intro h
    exact_mod_cast h

theorem le_inf_of_regular (x : Double) (h : x.regular = true) :
    Double.le x (Double.inf false) = true := by
  cases x with
  | nan => simp [Double.regular] at h
  | inf s =>
    have hs : s = false := by simpa [Double.regular] using h
    subst hs
    rfl
  | finite s m e => rfl

theorem le_round (m : Nat) (e : Int) (n d : Nat) (hd : 0 < d) (hm : m < 2 ^ 53)
    (he : -1074 ≤ e) (h : (m : ℚ) * (2 : ℚ) ^ e ≤ (n : ℚ) / d) :
    Double.le (Double.finite false m e) (Double.round false n d) = true := by
  rcases Nat.eq_zero_or_pos n with hn | hn
  · subst hn
    have hm0 : m = 0 := by
      simp only [Nat.cast_zero, zero_div] at h
      have h1 : (m : ℚ) ≤ 0 := by
        by_contra hc
        have : (0 : ℚ) < (m : ℚ) * (2 : ℚ) ^ e := mul_pos (not_le.mp hc) (two_zpow_pos _)
        linarith
      have h2 : (m : ℚ) = 0 := le_antisymm h1 (Nat.cast_nonneg m)
      exact_mod_cast h2
    subst hm0
    simp [Double.round, roundMagnitude_zero, le_finite_iff]
  cases h1 : roundMagnitude n d with
  | none =>
    have hr : Double.round false n d = Double.inf false := by simp [Double.round, h1]
    rw [hr]
    rfl
  | some me =>
    obtain ⟨m1, e1⟩ := me
    obtain ⟨hv1, _, _, _⟩ := roundMagnitude_some n d m1 e1 hn hd h1
    have hr : Double.round false n d = Double.finite false m1 e1 := by
      simp [Double.round, h1]
    rw [hr, le_finite_iff, hv1]
    exact roundedValue_ge n d m e hn hd hm he h

theorem roundDyadic_eq (s : Bool) (n : Nat) (e : Int) :
    ∃ N D : Nat, 0 < D ∧ Double.roundDyadic s n e = Double.round s N D ∧
      (N : ℚ) / D = (n : ℚ) * (2 : ℚ) ^ e := by
  unfold Double.roundDyadic
  split
  · rename_i he
    refine ⟨n * 2 ^ e.toNat, 1, by norm_num, rfl, ?_⟩
    have : ((e.toNat : Nat) : Int) = e := Int.toNat_of_nonneg he
    push_cast
    rw [← zpow_natCast, this]
    simp
  · rename_i he
    refine ⟨n, 2 ^ (-e).toNat, by positivity, rfl, ?_⟩
    have : (((-e).toNat : Nat) : Int) = -e := Int.toNat_of_nonneg (by omega)
    push_cast
    rw [← zpow_natCast, this, zpow_neg]
    field_simp

theorem regular_nonneg (x : Double) (h : x.regular = true) : x.nonneg = true := by
  cases x with
  | nan => simp [Double.regular] at h
  | inf s => simpa [Double.regular, Double.nonneg] using h
  | finite s m e =>
    simp only [Double.regular, Bool.and_eq_true, Bool.not_eq_true', decide_eq_true_eq] at h
    simp [Double.nonneg, h.1.1]

theorem le_refl_regular (a : Double) (ha : a.regular = true) : Double.le a a = true := by
  cases a with
  | nan => simp [Double.regular] at ha
  | inf s =>
    have hs : s = false := by simpa [Double.regular] using ha
    subst hs
    rfl
  | finite s m e =>
    simp only [Double.regular, Bool.and_eq_true, Bool.not_eq_true', decide_eq_true_eq] at ha
    obtain ⟨⟨hs, _⟩, _⟩ := ha
    subst hs
    rw [le_finite_iff]

theorem le_trans_regular (a b c : Double) (ha : a.regular = true) (hb : b.regular = true)
    (hc : c.regular = true) (hab : Double.le a b = true) (hbc : Double.le b c = true) :
    Double.le a c = true := by
  cases c with
  | nan => simp [Double.regular] at hc
  | inf s =>
    have hs : s = false := by simpa [Double.regular] using hc
    subst hs
    exact le_inf_of_regular a ha
  | finite sc mc ec =>
    simp only [Double.regular, Bool.and_eq_true, Bool.not_eq_true', decide_eq_true_eq] at hc
    obtain ⟨⟨hsc, _⟩, _⟩ := hc
    subst hsc
    cases b with
    | nan => simp [Double.regular] at hb
    | inf s =>
      have hs : s = false := by simpa [Double.regular] using hb
      subst hs
      simp [Double.le] at hbc
    | finite sb mb eb =>
      simp only [Double.regular, Bool.and_eq_true, Bool.not_eq_true', decide_eq_true_eq] at hb
      obtain ⟨⟨hsb, _⟩, _⟩ := hb
      subst hsb
      cases a with
      | nan => simp [Double.regular] at ha
      | inf s =>
        have hs : s = false := by simpa [Double.regular] using ha
        subst hs
        simp [Double.le] at hab
      | finite sa ma ea =>
        simp only [Double.regular, Bool.and_eq_true, Bool.not_eq_true',
          decide_eq_true_eq] at ha
        obtain ⟨⟨hsa, _⟩, _⟩ := ha
        subst hsa
        rw [le_finite_iff] at hab hbc ⊢
        exact le_trans hab hbc

theorem zero_add_pos (md : Nat) (ed : Int) (hmd : md ≠ 0) :
    ∃ N D : Nat, 0 < D ∧
      Double.add (Double.finite false 0 (-1074)) (Double.finite false md ed) =
        Double.round false N D ∧
      (md : ℚ) * (2 : ℚ) ^ ed ≤ (N : ℚ) / D := by
  have hpos : 0 < md * 2 ^ (ed - min (-1074) ed).toNat := Nat.mul_pos (by omega) (by positivity)
  have hsum : Double.signed false (0 * 2 ^ (-1074 - min (-1074) ed).toNat) +
      Double.signed false (md * 2 ^ (ed - min (-1074) ed).toNat) =
      ((md * 2 ^ (ed - min (-1074) ed).toNat : Nat) : Int) := by
    simp [Double.signed]
  simp only [Double.add]
  rw [hsum]
  have hne : ((md * 2 ^ (ed - min (-1074) ed).toNat : Nat) : Int) ≠ 0 := by
    have : (0 : Int) < ((md * 2 ^ (ed - min (-1074) ed).toNat : Nat) : Int) := by
      exact_mod_cast hpos
    omega
  have hdec : decide (((md * 2 ^ (ed - min (-1074) ed).toNat : Nat) : Int) < 0) = false := by
    simp only [decide_eq_false_iff_not, not_lt]
    exact Int.natCast_nonneg _
  simp only [hne, if_false, hdec, Int.natAbs_ofNat]
  obtain ⟨N, D, hD, hr, hval⟩ := roundDyadic_eq false
    (md * 2 ^ (ed - min (-1074) ed).toNat) (min (-1074) ed)
  refine ⟨N, D, hD, hr, ?_⟩
  rw [hval]
  have h1 : (((ed - min (-1074) ed).toNat : Nat) : Int) = ed - min (-1074) ed :=
    Int.toNat_of_nonneg (by omega)
  have k1 : (md : ℚ) * (2 : ℚ) ^ ed =
      ((md * 2 ^ (ed - min (-1074) ed).toNat : Nat) : ℚ) * (2 : ℚ) ^ (min (-1074) ed) := by
    push_cast
    rw [← zpow_natCast, h1, mul_assoc, ← zpow_add₀ (by norm_num : (2 : ℚ) ≠ 0)]
    congr 2
    ring
  rw [k1]

theorem first_step_leaves_zero (dt : Double) (hdt : Double.lt (Double.lit 0 1) dt = true)
    (hreg : dt.regular = true) :
    Double.le (Double.add (Double.lit 0 1) dt) (Double.lit 0 1) = false := by
  have hz : (Double.lit 0 1).regular = true := by
    rw [lit_zero]
    rfl
  have hdt0 : Double.le dt (Double.lit 0 1) = false := by
    simp only [Double.lt, Bool.and_eq_true, Bool.not_eq_true'] at hdt
    exact hdt.2
  cases dt with
  | nan => simp [Double.regular] at hreg
  | inf s =>
    have hs : s = false := by simpa [Double.regular] using hreg
    subst hs
    rw [lit_zero]
    rfl
  | finite s md ed =>
    obtain ⟨m2, e2, h2, hm2⟩ := pos_cases (Double.finite s md ed) rfl hdt
    cases h2
    have hreg2 := hreg
    simp only [Double.regular, Bool.and_eq_true, Bool.not_eq_true', decide_eq_true_eq] at hreg2
    obtain ⟨⟨_, hm⟩, he⟩ := hreg2
    obtain ⟨N, D, hD, hr, hval⟩ := zero_add_pos md ed hm2
    have hle : Double.le (Double.finite false md ed)
        (Double.add (Double.lit 0 1) (Double.finite false md ed)) = true := by
      rw [lit_zero, hr]
      exact le_round md ed N D hD hm he hval
    have hra : (Double.add (Double.lit 0 1) (Double.finite false md ed)).regular = true := by
      rw [lit_zero, hr]
      exact regular_round N D hD
    cases hcase : Double.le (Double.add (Double.lit 0 1) (Double.finite false md ed))
        (Double.lit 0 1) with
    | false => rfl
    | true =>
      have := le_trans_regular _ _ _ hreg hra hz hle hcase
      rw [hdt0] at this
      cases this

theorem zero_div_pos (mv : Nat) (ev : Int) (hmv : mv ≠ 0) :
    Double.div (Double.lit 0 1) (Double.finite false mv ev) = Double.lit 0 1 := by
  rw [lit_zero]
  simp only [Double.div, hmv, if_false]
  split <;> simp [Double.round, roundMagnitude_zero]

theorem pos_mul_zero (mv : Nat) (ev : Int) :
    Double.mul (Double.finite false mv ev) (Double.lit 0 1) = Double.lit 0 1 := by
  rw [lit_zero]
  simp only [Double.mul, Double.roundDyadic, Nat.mul_zero, Nat.zero_mul]
  split <;> simp [Double.round, roundMagnitude_zero]

/-! ## The arc lengths of the driving loop -/

/-- C1 refuted as stated: in binary64 at `v = 1.0`, `dt = 0.1`, `L = 1.0` the loop
makes 11 calls, at the rounded running sums `unitRunCalls`, where the exact formula
gives 10 arc lengths; the fourth call is not at the exact `v * (3 * dt)`, and the
ninth call is not at the double `v * (8 * dt)` either. -/
theorem arc_lengths_are_rounded_sums :
    (simulate binary64 sampleFmt false originState originState
        (sampleCurveOfLength (Double.lit 1 1)) (Double.lit 1 1) (Double.lit 1 10) 12).map
      (fun o => o.calls) = some unitRunCalls ∧
    unitRunCalls.length = 11 ∧
    (specArcLengths (Double.lit 1 1).toRat (Double.lit 1 1).toRat
      (Double.lit 1 10).toRat).length = 10 ∧
    unitRunCalls.map Double.toRat ≠
      specArcLengths (Double.lit 1 1).toRat (Double.lit 1 1).toRat (Double.lit 1 10).toRat ∧
    (Double.finite false 5404319552844596 (-54)).toRat ≠
      (Double.lit 1 1).toRat * (3 * (Double.lit 1 10).toRat) ∧
    unitRunCalls[8]? ≠
      some (Double.mul (Double.lit 1 1) (Double.mul (Double.lit 8 1) (Double.lit 1 10))) := by
  have h1 : Double.lit 1 1 = Double.finite false 4503599627370496 (-52) := by decide
  have h10 : Double.lit 1 10 = Double.finite false 7205759403792794 (-56) := by decide
  have hlen : (specArcLengths (Double.lit 1 1).toRat (Double.lit 1 1).toRat
      (Double.lit 1 10).toRat).length = 10 := by
    have hf : ⌊(Double.lit 1 1).toRat / ((Double.lit 1 1).toRat *
        (Double.lit 1 10).toRat)⌋₊ = 9 := by
      rw [h1, h10, Nat.floor_eq_iff (by norm_num [Double.toRat])]
      norm_num [Double.toRat]
    simp [specArcLengths, hf]
  refine ⟨by decide, rfl, hlen, ?_, ?_, by decide⟩
  · intro h
    have := congrArg List.length h
    rw [hlen] at this
    simp [unitRunCalls] at this
  · rw [h1, h10]
    norm_num [Double.toRat]

/-- C1 as amended: the arc lengths passed to `evaluate` are `v * t_k` (one rounded
product) for `k = 0, ..., n - 1`, where `t_0 = 0`, `t_(k+1) = t_k + dt` (one rounded
addition) and a call is made for `k` exactly when `t_0, ..., t_k` all pass the guard
`t <= L / v` (one rounded quotient).  When `t_0` passes the guard and `t_1` fails it
there is exactly one call, at `v * 0`; in binary64 this is the case for `L = 0`, finite
`v > 0` and `dt > 0` (`dt` an encoded double: significand below `2^53`, exponent at
least `-1074`), where the single call is at `0`.  The run returns as soon as one
loop time fails the guard. -/
theorem driving_loop_arc_lengths {D : Type} (A : DoubleOps D) (fmt : D → String)
    (popenOk : Bool) (start end_ : CarState D) (evaluate : D → EvalOut D) (L v dt : D) :
    (∀ fuel out, simulate A fmt popenOk start end_ { length := L, evaluate := evaluate }
        v dt fuel = some out →
      out.calls = (List.range out.calls.length).map (fun k => A.mul v (loopTime A dt k)) ∧
      (∀ k : Nat, k < out.calls.length ↔
        ∀ j : Nat, j ≤ k → A.le (loopTime A dt j) (A.div L v) = true) ∧
      (A.le (A.lit 0 1) (A.div L v) = true →
        A.le (A.add (A.lit 0 1) dt) (A.div L v) = false →
        out.calls = [A.mul v (A.lit 0 1)])) ∧
    ((∃ n, A.le (loopTime A dt n) (A.div L v) = false) →
      ∃ fuel out, simulate A fmt popenOk start end_ { length := L, evaluate := evaluate }
        v dt fuel = some out) ∧
    (∀ (fmt2 : Double → String) (start2 end2 : CarState Double)
        (evaluate2 : Double → EvalOut Double) (v2 dt2 : Double),
      v2.isFinite = true → Double.lt (Double.lit 0 1) v2 = true →
      Double.lt (Double.lit 0 1) dt2 = true → dt2.regular = true →
      (∃ fuel out, simulate binary64 fmt2 popenOk start2 end2
          { length := Double.lit 0 1, evaluate := evaluate2 } v2 dt2 fuel = some out) ∧
      ∀ fuel out, simulate binary64 fmt2 popenOk start2 end2
          { length := Double.lit 0 1, evaluate := evaluate2 } v2 dt2 fuel = some out →
        out.calls = [Double.lit 0 1]) := by
  refine ⟨?_, simulate_returns A fmt popenOk start end_
    { length := L, evaluate := evaluate } v dt, ?_⟩
  swap
  · intro fmt2 start2 end2 evaluate2 v2 dt2 hvf hv hdt hreg
    obtain ⟨mv, ev, rfl, hmv⟩ := pos_cases v2 hvf hv
    have hT : binary64.div (Double.lit 0 1) (Double.finite false mv ev) = Double.lit 0 1 :=
      zero_div_pos mv ev hmv
    have hz : (Double.lit 0 1).regular = true := by
      rw [lit_zero]
      rfl
    have hg0 : binary64.le (loopTime binary64 dt2 0)
        (binary64.div (Double.lit 0 1) (Double.finite false mv ev)) = true := by
      rw [hT]
      exact le_refl_regular _ hz
    have hg1 : binary64.le (loopTime binary64 dt2 1)
        (binary64.div (Double.lit 0 1) (Double.finite false mv ev)) = false := by
      rw [hT]
      exact first_step_leaves_zero dt2 hdt hreg
    constructor
    · exact simulate_returns binary64 fmt2 popenOk start2 end2 _ _ _ ⟨1, hg1⟩
    · intro fuel out h
      obtain ⟨n, _, hgo, hstop, hc, _, _⟩ :=
        (simulate_some_iff binary64 fmt2 popenOk start2 end2 _ _ dt2 fuel out).mp h
      simp only at hgo hstop hc
      have hn1 : n = 1 := by
        rcases Nat.lt_trichotomy n 1 with hlt | heq | hgt
        · have : n = 0 := by omega
          subst this
          rw [hg0] at hstop
          cases hstop
        · exact heq
        · have := hgo 1 hgt
          rw [hg1] at this
          cases this
      rw [hc, hn1]
      show [Double.mul (Double.finite false mv ev) (Double.lit 0 1)] = [Double.lit 0 1]
      rw [pos_mul_zero]
  intro fuel out h
  obtain ⟨n, _, hgo, hstop, hc, _, _⟩ :=
    (simulate_some_iff A fmt popenOk start end_ _ v dt fuel out).mp h
  simp only at hgo hstop hc
  have hlen : out.calls.length = n := by simp [hc]
  have hiff : ∀ k : Nat, k < n ↔
      ∀ j : Nat, j ≤ k → A.le (loopTime A dt j) (A.div L v) = true := by
    intro k
    constructor
    · intro hk j hj
      exact hgo j (by omega)
    · intro hall
      by_contra hk
      have := hall n (by omega)
      rw [hstop] at this
      cases this
  refine ⟨?_, ?_, ?_⟩
  · rw [hlen, hc]
  · rw [hlen]
    exact hiff
  · intro h0 h1
    have hn1 : n = 1 := by
      have hpos : 0 < n := (hiff 0).mpr (fun j hj => by
        have : j = 0 := by omega
        subst this
        exact h0)
      by_contra hne
      have := hgo 1 (by omega)
      rw [show loopTime A dt 1 = A.add (A.lit 0 1) dt from rfl, h1] at this
      cases this
    rw [hc, hn1]
    rfl

/-- Instance of the amended C1 in binary64 at `L = 0`, `v = 1.0`, `dt = 0.1`: exactly
one call, at `0`. -/
theorem driving_loop_arc_lengths_witness :
    ∃ out, simulate binary64 sampleFmt false originState originState
        { length := Double.lit 0 1, evaluate := sampleCurve.evaluate }
        (Double.lit 1 1) (Double.lit 1 10) 2 = some out ∧
      out.calls = (List.range out.calls.length).map
        (fun k => binary64.mul (Double.lit 1 1) (loopTime binary64 (Double.lit 1 10) k)) ∧
      (∀ k : Nat, k < out.calls.length ↔
        ∀ j : Nat, j ≤ k → binary64.le (loopTime binary64 (Double.lit 1 10) j)
          (binary64.div (Double.lit 0 1) (Double.lit 1 1)) = true) ∧
      out.calls = [binary64.mul (Double.lit 1 1) (binary64.lit 0 1)] := by
  have hs : (simulate binary64 sampleFmt false originState originState
      { length := Double.lit 0 1, evaluate := sampleCurve.evaluate }
      (Double.lit 1 1) (Double.lit 1 10) 2).isSome = true := by decide
  obtain ⟨out, hout⟩ := Option.isSome_iff_exists.mp hs
  have h := (driving_loop_arc_lengths binary64 sampleFmt false originState originState
    sampleCurve.evaluate (Double.lit 0 1) (Double.lit 1 1) (Double.lit 1 10)).1 2 out hout
  exact ⟨out, hout, h.1, h.2.1, h.2.2 (by decide) (by decide)⟩

end CarClothoids
